import Mathlib

/-
Verification of the vLLM V1 LLMEngine control plane
(src/vllm/v1/engine/llm_engine.py) against its design specification.

The engine state and its operations are embedded shallowly:
  - the pending-detokenization table (self.detokenizer_reqs, a python dict
    from request id to Request) becomes an AList keyed by String;
  - the zmq push/pull sockets become an outbox (messages sent) and an inbox
    (messages ready to be received) of plain message values;
  - python exceptions and assertion failures become Except / Option results.
The Scheduler lives in vllm/v1/core/scheduler.py, which is outside the
analyzed source; its operations are modelled from the specification text
and are marked as such in their doc comments.
-/

namespace VllmV1

/-- Sampling parameters, restricted to the two fields the engine reads
(sampling_params.skip_special_tokens and
sampling_params.spaces_between_special_tokens). -/
structure SamplingParams where
  skip_special_tokens : Bool
  spaces_between_special_tokens : Bool
deriving DecidableEq

/-- One generation request (vllm/v1/request.py as used by the engine):
identity, prompt token ids, output token ids produced so far, accumulated
detokenized text, and sampling parameters. -/
structure Request where
  request_id : String
  prompt_token_ids : List Nat
  output_token_ids : List Nat
  output_text : String
  sampling_params : SamplingParams
deriving DecidableEq

/-- Outbound wire message DetokenizerInputs: parallel arrays, one slot per
finished request, plus a free/release id list. -/
structure DetokenizerInputs where
  req_ids : List String
  prompt_token_ids : List (List Nat)
  new_token_ids : List (List Nat)
  skip_special_tokens : List Bool
  spaces_between_special_tokens : List Bool
  free_req_ids : List String
deriving DecidableEq

/-- Inbound wire message DetokenizerOutputs: parallel arrays of request ids
and detokenized text increments. -/
structure DetokenizerOutputs where
  req_ids : List String
  detokenized_texts : List String
deriving DecidableEq

/-- The pending-detokenization table self.detokenizer_reqs: Dict[str, Request]. -/
abbrev PendingTable := AList (fun _ : String => Request)

/-- Modelled from the spec: the Scheduler (vllm/v1/core/scheduler.py) is an
external collaborator not part of the analyzed source. Per the spec it owns
the queued and running requests; the engine reads scheduler.running. -/
structure SchedulerState where
  waiting : List Request
  running : List Request
deriving DecidableEq

/-- Modelled from the spec: the number of unfinished (queued or running)
requests owned by the Scheduler. -/
def sched_get_num_unfinished (sch : SchedulerState) : Nat :=
  sch.waiting.length + sch.running.length

/-- Modelled from the spec: Scheduler.has_unfinished_requests. -/
def sched_has_unfinished (sch : SchedulerState) : Bool :=
  sched_get_num_unfinished sch != 0

/-- Modelled from the spec: true when the Scheduler owns a request with the
given id, in either the waiting queue or the running set. -/
def sched_owns_id (sch : SchedulerState) (rid : String) : Bool :=
  (sch.waiting ++ sch.running).any (fun r => r.request_id == rid)

/-- Modelled from the spec: Scheduler.add_request admits a request into the
waiting queue; an id already active in the Scheduler is rejected
(InvalidArgument, returned here as none) and the state is left unchanged. -/
def sched_add_request (sch : SchedulerState) (req : Request) :
    Option SchedulerState :=
  if sched_owns_id sch req.request_id then none
  else some { sch with waiting := sch.waiting ++ [req] }

/-- Modelled from the spec: Scheduler.schedule builds the per-step plan; the
admission policy is owned by the Scheduler, modelled here as admitting every
waiting request into the running set. -/
def sched_schedule (sch : SchedulerState) : SchedulerState :=
  { waiting := [], running := sch.waiting ++ sch.running }

/-- Modelled from the spec: Scheduler.update_from_output applies the executor
output, removes the requests whose generation ended this step from the
scheduler-owned state, and returns them. The executor output is abstracted
as the list of ids that finished this step. -/
def sched_update_from_output (sch : SchedulerState) (finIds : List String) :
    List Request × SchedulerState :=
  (sch.running.filter (fun r => finIds.contains r.request_id),
   { sch with running := sch.running.filter (fun r => !finIds.contains r.request_id) })

/-- Modelled from the spec: Scheduler.abort_requests removes the given ids
from scheduler-owned state only. -/
def sched_abort (sch : SchedulerState) (ids : List String) : SchedulerState :=
  { waiting := sch.waiting.filter (fun r => !ids.contains r.request_id),
    running := sch.running.filter (fun r => !ids.contains r.request_id) }

/-- The slice of ModelConfig the engine admission path reads. -/
structure ModelConfig where
  is_multimodal_model : Bool
  max_model_len : Nat
deriving DecidableEq

/-- The whole engine state: configuration, the (spec-modelled) scheduler, the
pending-detokenization table, and the two message queues. -/
structure EngineState where
  model_config : ModelConfig
  scheduler : SchedulerState
  detokenizer_reqs : PendingTable
  outbox : List DetokenizerInputs
  inbox : List DetokenizerOutputs

/-- Errors surfaced by the engine: InvalidArgument for a duplicate id,
the ValueError for an empty prompt, the prompt-too-long ValueError carrying
the actual and maximum lengths, and the recv-side assertion failure. -/
inductive EngineError where
  | invalidArgument : EngineError
  | emptyPrompt : EngineError
  | promptTooLong (actual maxLen : Nat) : EngineError
  | protocolDesync : EngineError
deriving DecidableEq

/-- Pieces of the prompt-too-long message, split around the two lengths it
interpolates. -/
def prompt_too_long_msg_pre : String := "The prompt (total length "

/-- Middle piece of the prompt-too-long message. -/
def prompt_too_long_msg_mid : String :=
  ") is too long to fit into the model (context length "

/-- Tail piece of the prompt-too-long message. -/
def prompt_too_long_msg_post : String :=
  "). Make sure that max_model_len is no smaller than the number of text tokens plus multimodal tokens. For image inputs, the number of image tokens depends on the number of images, and possibly their aspect ratios as well."

/-- The f-string of LLMEngine._validate_model_inputs naming both lengths. -/
def prompt_too_long_msg (actual maxLen : Nat) : String :=
  prompt_too_long_msg_pre ++ (toString actual ++ (prompt_too_long_msg_mid ++
    (toString maxLen ++ prompt_too_long_msg_post)))

/-- The human-readable message attached to each engine error. -/
def engine_error_msg : EngineError → String
  | .invalidArgument => "InvalidArgument"
  | .emptyPrompt => "Prompt cannot be empty"
  | .promptTooLong actual maxLen => prompt_too_long_msg actual maxLen
  | .protocolDesync => "AssertionError"

/-- LLMEngine._validate_model_inputs: reject a missing or empty prompt token
sequence; for a multimodal model additionally reject a prompt longer than
max_model_len. -/
def validate_model_inputs (cfg : ModelConfig) (prompt_ids : Option (List Nat)) :
    Except EngineError Unit :=
  match prompt_ids with
  | none => .error .emptyPrompt
  | some ids =>
    if ids.length = 0 then .error .emptyPrompt
    else if cfg.is_multimodal_model then
      if cfg.max_model_len < ids.length then
        .error (.promptTooLong ids.length cfg.max_model_len)
      else .ok ()
    else .ok ()

/-- LLMEngine.add_request followed by _add_processed_request: validate the
processed inputs, construct the Request, and hand it to the Scheduler. An
admission error leaves the engine state unchanged (no state is returned). -/
def add_request (s : EngineState) (request_id : String)
    (prompt_ids : Option (List Nat)) (params : SamplingParams) :
    Except EngineError EngineState :=
  match validate_model_inputs s.model_config prompt_ids with
  | .error e => .error e
  | .ok _ =>
    let req : Request :=
      { request_id := request_id
        prompt_token_ids := prompt_ids.getD []
        output_token_ids := []
        output_text := ""
        sampling_params := params }
    match sched_add_request s.scheduler req with
    | none => .error .invalidArgument
    | some sch => .ok { s with scheduler := sch }

/-- LLMEngine.abort_request: delegate to Scheduler.abort_requests; nothing
else in the engine state is touched. -/
def abort_request (s : EngineState) (ids : List String) : EngineState :=
  { s with scheduler := sched_abort s.scheduler ids }

/-- LLMEngine.get_num_unfinished_requests: the scheduler count only. -/
def get_num_unfinished_requests (s : EngineState) : Nat :=
  sched_get_num_unfinished s.scheduler

/-- LLMEngine.has_unfinished_requests: scheduler unfinished or a non-empty
pending-detokenization table. -/
def has_unfinished_requests (s : EngineState) : Bool :=
  sched_has_unfinished s.scheduler || decide (0 < s.detokenizer_reqs.entries.length)

/-- The DetokenizerInputs value the send path starts from: all arrays empty. -/
def empty_detokenizer_inputs : DetokenizerInputs :=
  { req_ids := [], prompt_token_ids := [], new_token_ids := []
    skip_special_tokens := [], spaces_between_special_tokens := []
    free_req_ids := [] }

/-- One iteration of the loop in LLMEngine.send_to_detokenizer: record the
request in the pending table and append its fields to the parallel arrays. -/
def send_step (acc : PendingTable × DetokenizerInputs) (req : Request) :
    PendingTable × DetokenizerInputs :=
  (acc.1.insert req.request_id req,
   { req_ids := acc.2.req_ids ++ [req.request_id]
     prompt_token_ids := acc.2.prompt_token_ids ++ [req.prompt_token_ids]
     new_token_ids := acc.2.new_token_ids ++ [req.output_token_ids]
     skip_special_tokens :=
       acc.2.skip_special_tokens ++ [req.sampling_params.skip_special_tokens]
     spaces_between_special_tokens :=
       acc.2.spaces_between_special_tokens ++
         [req.sampling_params.spaces_between_special_tokens]
     free_req_ids := acc.2.free_req_ids })

/-- LLMEngine.send_to_detokenizer: fold the loop over the finished requests,
then push the built message on the outbound socket (modelled as appending it
to the outbox). -/
def send_to_detokenizer (s : EngineState) (requests : List Request) : EngineState :=
  let result := requests.foldl send_step (s.detokenizer_reqs, empty_detokenizer_inputs)
  { s with detokenizer_reqs := result.1, outbox := s.outbox ++ [result.2] }

/-- The per-receipt update in LLMEngine.recv_from_detokenizer:
req.output_text += data.detokenized_texts[i]. -/
def apply_text_increment (req : Request) (txt : String) : Request :=
  { req with output_text := req.output_text ++ txt }

/-- The loop of LLMEngine.recv_from_detokenizer over the pairs of one decoded
message: each id is asserted to be in the pending table (none models the
assertion failure), popped, its text increment appended, and the request
appended to the completed list. -/
def process_pairs (pending : PendingTable) :
    List (String × String) → Option (PendingTable × List Request)
  | [] => some (pending, [])
  | (rid, txt) :: rest =>
    match pending.lookup rid with
    | none => none
    | some req =>
      match process_pairs (pending.erase rid) rest with
      | none => none
      | some (p, l) => some (p, apply_text_increment req txt :: l)

/-- The (request id, text increment) pairs of one inbound message, pairing
the parallel arrays positionally as the python loop does by index. -/
def msg_pairs (msg : DetokenizerOutputs) : List (String × String) :=
  msg.req_ids.zip msg.detokenized_texts

/-- LLMEngine.recv_from_detokenizer: zero-timeout poll of the inbound socket
(modelled as inspecting the inbox); when a message is ready, drain exactly
that one message and process its pairs; none models the fatal assertion. -/
def recv_from_detokenizer (s : EngineState) :
    Option (EngineState × List Request) :=
  match s.inbox with
  | [] => some (s, [])
  | msg :: rest =>
    match process_pairs s.detokenizer_reqs (msg_pairs msg) with
    | none => none
    | some (pending, completed) =>
      some ({ s with detokenizer_reqs := pending, inbox := rest }, completed)

/-- The observable sub-operations of one LLMEngine.step call. -/
inductive StepEvent where
  | schedule : StepEvent
  | execute : StepEvent
  | applyOutput : StepEvent
  | dispatch : StepEvent
  | receive : StepEvent
deriving DecidableEq

/-- LLMEngine.step: when the scheduler has unfinished requests, run
schedule, execute_model, update_from_output, and, only when the finished
list is non-empty, send_to_detokenizer; in every case run
recv_from_detokenizer and return the detokenized requests together with
scheduler.running. The executor output is abstracted as the finIds argument
consumed by update_from_output; the returned event list records which
sub-operations ran, in order. -/
def step (s : EngineState) (finIds : List String) :
    Option (EngineState × List Request × List Request × List StepEvent) :=
  if sched_has_unfinished s.scheduler then
    let sch1 := sched_schedule s.scheduler
    let fin := sched_update_from_output sch1 finIds
    let s1 : EngineState := { s with scheduler := fin.2 }
    let s2 := if fin.1.isEmpty then s1 else send_to_detokenizer s1 fin.1
    let evs := [StepEvent.schedule, StepEvent.execute, StepEvent.applyOutput] ++
      (if fin.1.isEmpty then [] else [StepEvent.dispatch])
    match recv_from_detokenizer s2 with
    | none => none
    | some (s3, completed) =>
      some (s3, completed, s3.scheduler.running, evs ++ [StepEvent.receive])
  else
    match recv_from_detokenizer s with
    | none => none
    | some (s3, completed) =>
      some (s3, completed, s3.scheduler.running, [StepEvent.receive])

/-- LLMEngine._initialize_kv_caches outcome: the block counts published into
cache_config and the argument passed to model_executor.initialize_cache. -/
structure KVCacheInit where
  num_gpu_blocks : Nat
  num_cpu_blocks : Nat
  executor_init_arg : Nat
deriving DecidableEq

/-- LLMEngine._initialize_kv_caches: take the probed number of GPU blocks,
replace it by the override when one is configured, publish it (with zero CPU
blocks) and pass the same number to initialize_cache. -/
def initialize_kv_caches (probed : Nat) (num_gpu_blocks_override : Option Nat) :
    KVCacheInit :=
  let num_gpu_blocks :=
    match num_gpu_blocks_override with
    | some n => n
    | none => probed
  { num_gpu_blocks := num_gpu_blocks, num_cpu_blocks := 0
    executor_init_arg := num_gpu_blocks }

/-! ## Helper lemmas -/

theorem string_foldl_append (l : List String) (init : String) :
    l.foldl (fun r s => r ++ s) init = init ++ String.join l := by
  induction l generalizing init with
  | nil => exact (String.append_empty init).symm
  | cons a l ih =>
    rw [show String.join (a :: l) = l.foldl (fun r s => r ++ s) a from by
          show l.foldl (fun r s => r ++ s) ("" ++ a) = _
          rw [String.empty_append],
        ih]
    show l.foldl (fun r s => r ++ s) (init ++ a) = init ++ (a ++ String.join l)
    rw [ih, String.append_assoc]

theorem string_join_cons (a : String) (l : List String) :
    String.join (a :: l) = a ++ String.join l := by
  show l.foldl (fun r s => r ++ s) ("" ++ a) = a ++ String.join l
  rw [String.empty_append, string_foldl_append]

theorem foldl_apply_text_increment (incs : List String) (r : Request) :
    incs.foldl apply_text_increment r =
      { r with output_text := r.output_text ++ String.join incs } := by
  induction incs generalizing r with
  | nil =>
    show r = _
    rw [show r.output_text ++ String.join [] = r.output_text from
          String.append_empty _]
  | cons a l ih =>
    simp only [List.foldl_cons, ih, apply_text_increment]
    congr 1
    rw [string_join_cons, ← String.append_assoc]

theorem foldl_send_step (reqs : List Request) (p : PendingTable)
    (m : DetokenizerInputs) :
    reqs.foldl send_step (p, m) =
      (reqs.foldl (fun t r => t.insert r.request_id r) p,
       { req_ids := m.req_ids ++ reqs.map (fun r => r.request_id)
         prompt_token_ids := m.prompt_token_ids ++ reqs.map (fun r => r.prompt_token_ids)
         new_token_ids := m.new_token_ids ++ reqs.map (fun r => r.output_token_ids)
         skip_special_tokens :=
           m.skip_special_tokens ++ reqs.map (fun r => r.sampling_params.skip_special_tokens)
         spaces_between_special_tokens :=
           m.spaces_between_special_tokens ++
             reqs.map (fun r => r.sampling_params.spaces_between_special_tokens)
         free_req_ids := m.free_req_ids }) := by
  induction reqs generalizing p m with
  | nil => simp
  | cons r rest ih =>
    simp only [List.foldl_cons, List.map_cons, send_step, ih]
    simp [List.append_assoc]

theorem lookup_foldl_insert_not_mem (reqs : List Request) (p : PendingTable)
    (rid : String) (h : rid ∉ reqs.map (fun r => r.request_id)) :
    (reqs.foldl (fun t r => t.insert r.request_id r) p).lookup rid = p.lookup rid := by
  induction reqs generalizing p with
  | nil => rfl
  | cons r rest ih =>
    simp only [List.map_cons, List.mem_cons] at h
    push_neg at h
    simp only [List.foldl_cons]
    rw [ih _ h.2, AList.lookup_insert_ne h.1]

theorem lookup_foldl_insert_mem (reqs : List Request) :
    ∀ (p : PendingTable) (r : Request), r ∈ reqs →
    (reqs.map (fun r => r.request_id)).Nodup →
    (reqs.foldl (fun t r => t.insert r.request_id r) p).lookup r.request_id = some r := by
  induction reqs with
  | nil =>
    intro p r hmem _
    cases hmem
  | cons q rest ih =>
    intro p r hmem hnodup
    simp only [List.map_cons, List.nodup_cons] at hnodup
    rcases List.mem_cons.mp hmem with rfl | hrest
    · simp only [List.foldl_cons]
      rw [lookup_foldl_insert_not_mem rest _ _ hnodup.1, AList.lookup_insert]
    · simp only [List.foldl_cons]
      exact ih (p.insert q.request_id q) r hrest hnodup.2

/-- Well-formedness of the pending table: every entry is keyed by the id of
the request it stores, as maintained by send_to_detokenizer. -/
def PendingWF (p : PendingTable) : Prop :=
  ∀ rid r, p.lookup rid = some r → r.request_id = rid

theorem pendingWF_empty : PendingWF ∅ := by
  intro rid r h
  rw [AList.lookup_empty] at h
  cases h

theorem pendingWF_erase (p : PendingTable) (a : String) (h : PendingWF p) :
    PendingWF (p.erase a) := by
  intro rid r hl
  by_cases hra : rid = a
  · subst hra
    rw [AList.lookup_erase] at hl
    cases hl
  · rw [AList.lookup_erase_ne hra] at hl
    exact h rid r hl

theorem pendingWF_insert (p : PendingTable) (r0 : Request) (h : PendingWF p) :
    PendingWF (p.insert r0.request_id r0) := by
  intro rid r hl
  by_cases hra : rid = r0.request_id
  · subst hra
    rw [AList.lookup_insert] at hl
    cases hl
    rfl
  · rw [AList.lookup_insert_ne hra] at hl
    exact h rid r hl

theorem process_pairs_some_mem (pairs : List (String × String)) :
    ∀ (p : PendingTable) (res : PendingTable × List Request),
    process_pairs p pairs = some res →
    ∀ a t, (a, t) ∈ pairs → p.lookup a ≠ none := by
  induction pairs with
  | nil =>
    intro p res _ a t hmem
    cases hmem
  | cons x rest ih =>
    intro p res hres a t hmem
    obtain ⟨rid, txt⟩ := x
    cases hl : p.lookup rid with
    | none =>
      simp only [process_pairs, hl] at hres
      exact Option.noConfusion hres
    | some req =>
      simp only [process_pairs, hl] at hres
      rcases List.mem_cons.mp hmem with heq | hmem2
      · obtain ⟨rfl, rfl⟩ := Prod.mk.inj heq
        simp [hl]
      · cases hrec : process_pairs (p.erase rid) rest with
        | none =>
          simp only [hrec] at hres
          exact Option.noConfusion hres
        | some pr =>
          have hne := ih (p.erase rid) pr hrec a t hmem2
          intro hnone
          apply hne
          by_cases hae : a = rid
          · subst hae
            exact AList.lookup_erase a p
          · rw [AList.lookup_erase_ne hae]
            exact hnone

theorem process_pairs_fail (pairs : List (String × String)) (p : PendingTable)
    (a t : String) (hmem : (a, t) ∈ pairs) (hnone : p.lookup a = none) :
    process_pairs p pairs = none := by
  cases h : process_pairs p pairs with
  | none => rfl
  | some res => exact absurd hnone (process_pairs_some_mem pairs p res h a t hmem)

theorem process_pairs_preserves_none (pairs : List (String × String)) :
    ∀ (p p' : PendingTable) (l : List Request) (a : String),
    process_pairs p pairs = some (p', l) → p.lookup a = none →
    p'.lookup a = none := by
  induction pairs with
  | nil =>
    intro p p' l a hres hnone
    simp only [process_pairs, Option.some.injEq, Prod.mk.injEq] at hres
    obtain ⟨rfl, rfl⟩ := hres
    exact hnone
  | cons x rest ih =>
    intro p p' l a hres hnone
    obtain ⟨rid, txt⟩ := x
    cases hl : p.lookup rid with
    | none =>
      simp only [process_pairs, hl] at hres
      exact Option.noConfusion hres
    | some req =>
      simp only [process_pairs, hl] at hres
      cases hrec : process_pairs (p.erase rid) rest with
      | none =>
        simp only [hrec] at hres
        exact Option.noConfusion hres
      | some pr =>
        obtain ⟨pr1, pr2⟩ := pr
        simp only [hrec, Option.some.injEq, Prod.mk.injEq] at hres
        obtain ⟨rfl, rfl⟩ := hres
        apply ih (p.erase rid) pr1 pr2 a hrec
        by_cases hae : a = rid
        · subst hae
          exact AList.lookup_erase a p
        · rw [AList.lookup_erase_ne hae]
          exact hnone

theorem process_pairs_wf (pairs : List (String × String)) :
    ∀ (p p' : PendingTable) (l : List Request),
    process_pairs p pairs = some (p', l) → PendingWF p → PendingWF p' := by
  induction pairs with
  | nil =>
    intro p p' l hres hwf
    simp only [process_pairs, Option.some.injEq, Prod.mk.injEq] at hres
    obtain ⟨rfl, rfl⟩ := hres
    exact hwf
  | cons x rest ih =>
    intro p p' l hres hwf
    obtain ⟨rid, txt⟩ := x
    cases hl : p.lookup rid with
    | none =>
      simp only [process_pairs, hl] at hres
      exact Option.noConfusion hres
    | some req =>
      simp only [process_pairs, hl] at hres
      cases hrec : process_pairs (p.erase rid) rest with
      | none =>
        simp only [hrec] at hres
        exact Option.noConfusion hres
      | some pr =>
        obtain ⟨pr1, pr2⟩ := pr
        simp only [hrec, Option.some.injEq, Prod.mk.injEq] at hres
        obtain ⟨rfl, rfl⟩ := hres
        exact ih (p.erase rid) pr1 pr2 hrec (pendingWF_erase p rid hwf)

theorem process_pairs_ids (pairs : List (String × String)) :
    ∀ (p p' : PendingTable) (l : List Request),
    process_pairs p pairs = some (p', l) → PendingWF p →
    l.map (fun r => r.request_id) = pairs.map Prod.fst := by
  induction pairs with
  | nil =>
    intro p p' l hres _
    simp only [process_pairs, Option.some.injEq, Prod.mk.injEq] at hres
    obtain ⟨rfl, rfl⟩ := hres
    rfl
  | cons x rest ih =>
    intro p p' l hres hwf
    obtain ⟨rid, txt⟩ := x
    cases hl : p.lookup rid with
    | none =>
      simp only [process_pairs, hl] at hres
      exact Option.noConfusion hres
    | some req =>
      simp only [process_pairs, hl] at hres
      cases hrec : process_pairs (p.erase rid) rest with
      | none =>
        simp only [hrec] at hres
        exact Option.noConfusion hres
      | some pr =>
        obtain ⟨pr1, pr2⟩ := pr
        simp only [hrec, Option.some.injEq, Prod.mk.injEq] at hres
        obtain ⟨rfl, rfl⟩ := hres
        simp only [List.map_cons]
        rw [ih (p.erase rid) pr1 pr2 hrec (pendingWF_erase p rid hwf)]
        have hid : (apply_text_increment req txt).request_id = req.request_id := rfl
        rw [hid, hwf rid req hl]

theorem process_pairs_removed (pairs : List (String × String)) :
    ∀ (p p' : PendingTable) (l : List Request),
    process_pairs p pairs = some (p', l) →
    ∀ a, a ∈ pairs.map Prod.fst → p'.lookup a = none := by
  induction pairs with
  | nil =>
    intro p p' l _ a hmem
    cases hmem
  | cons x rest ih =>
    intro p p' l hres a hmem
    obtain ⟨rid, txt⟩ := x
    cases hl : p.lookup rid with
    | none =>
      simp only [process_pairs, hl] at hres
      exact Option.noConfusion hres
    | some req =>
      simp only [process_pairs, hl] at hres
      cases hrec : process_pairs (p.erase rid) rest with
      | none =>
        simp only [hrec] at hres
        exact Option.noConfusion hres
      | some pr =>
        obtain ⟨pr1, pr2⟩ := pr
        simp only [hrec, Option.some.injEq, Prod.mk.injEq] at hres
        obtain ⟨rfl, rfl⟩ := hres
        rcases List.mem_cons.mp hmem with rfl | hmem2
        · exact process_pairs_preserves_none rest (p.erase a) pr1 pr2 a hrec
            (AList.lookup_erase a p)
        · exact ih (p.erase rid) pr1 pr2 hrec a hmem2

theorem process_pairs_content (pairs : List (String × String)) :
    ∀ (p p' : PendingTable) (l : List Request) (a t : String) (r : Request),
    process_pairs p pairs = some (p', l) → (a, t) ∈ pairs →
    p.lookup a = some r → apply_text_increment r t ∈ l := by
  induction pairs with
  | nil =>
    intro p p' l a t r _ hmem
    cases hmem
  | cons x rest ih =>
    intro p p' l a t r hres hmem hlook
    obtain ⟨rid, txt⟩ := x
    cases hl : p.lookup rid with
    | none =>
      simp only [process_pairs, hl] at hres
      exact Option.noConfusion hres
    | some req =>
      simp only [process_pairs, hl] at hres
      cases hrec : process_pairs (p.erase rid) rest with
      | none =>
        simp only [hrec] at hres
        exact Option.noConfusion hres
      | some pr =>
        obtain ⟨pr1, pr2⟩ := pr
        simp only [hrec, Option.some.injEq, Prod.mk.injEq] at hres
        obtain ⟨rfl, rfl⟩ := hres
        rcases List.mem_cons.mp hmem with heq | hmem2
        · obtain ⟨rfl, rfl⟩ := Prod.mk.inj heq
          rw [hl] at hlook
          cases hlook
          exact List.mem_cons_self _ _
        · by_cases hae : a = rid
          · subst hae
            have := process_pairs_some_mem rest (p.erase a) (pr1, pr2) hrec a t hmem2
            exact absurd (AList.lookup_erase a p) this
          · have hlook2 : (p.erase rid).lookup a = some r := by
              rw [AList.lookup_erase_ne hae]
              exact hlook
            exact List.mem_cons_of_mem _ (ih (p.erase rid) pr1 pr2 a t r hrec hmem2 hlook2)

theorem recv_frame (s s' : EngineState) (c : List Request)
    (h : recv_from_detokenizer s = some (s', c)) :
    s'.scheduler = s.scheduler ∧ s'.outbox = s.outbox ∧
    s'.model_config = s.model_config := by
  cases hin : s.inbox with
  | nil =>
    simp only [recv_from_detokenizer, hin, Option.some.injEq, Prod.mk.injEq] at h
    obtain ⟨rfl, rfl⟩ := h
    exact ⟨rfl, rfl, rfl⟩
  | cons m rest =>
    simp only [recv_from_detokenizer, hin] at h
    cases hp : process_pairs s.detokenizer_reqs (msg_pairs m) with
    | none =>
      simp only [hp] at h
      exact Option.noConfusion h
    | some pr =>
      obtain ⟨pr1, pr2⟩ := pr
      simp only [hp, Option.some.injEq, Prod.mk.injEq] at h
      obtain ⟨rfl, rfl⟩ := h
      exact ⟨rfl, rfl, rfl⟩

theorem recv_preserves_none (s s' : EngineState) (c : List Request) (rid : String)
    (h : recv_from_detokenizer s = some (s', c))
    (hnone : s.detokenizer_reqs.lookup rid = none) :
    s'.detokenizer_reqs.lookup rid = none := by
  cases hin : s.inbox with
  | nil =>
    simp only [recv_from_detokenizer, hin, Option.some.injEq, Prod.mk.injEq] at h
    obtain ⟨rfl, rfl⟩ := h
    exact hnone
  | cons m rest =>
    simp only [recv_from_detokenizer, hin] at h
    cases hp : process_pairs s.detokenizer_reqs (msg_pairs m) with
    | none =>
      simp only [hp] at h
      exact Option.noConfusion h
    | some pr =>
      obtain ⟨pr1, pr2⟩ := pr
      simp only [hp, Option.some.injEq, Prod.mk.injEq] at h
      obtain ⟨rfl, rfl⟩ := h
      exact process_pairs_preserves_none (msg_pairs m) s.detokenizer_reqs pr1 pr2
        rid hp hnone

/-! ## Claim theorems -/

/-- C7: the capacity published to the shared configuration and the argument
passed to initialize_cache both equal the override whenever one is present,
regardless of the probed value, and both equal the probed value verbatim
when no override is present. -/
theorem initialize_kv_caches_spec (probed n : Nat) :
    initialize_kv_caches probed (some n) =
      { num_gpu_blocks := n, num_cpu_blocks := 0, executor_init_arg := n } ∧
    initialize_kv_caches probed none =
      { num_gpu_blocks := probed, num_cpu_blocks := 0, executor_init_arg := probed } :=
  ⟨rfl, rfl⟩

/-- C6: admission rejects a prompt resolving to an empty token sequence; for
a multimodal model a resolved token count above max_model_len fails with the
prompt-too-long error carrying both lengths, and its message interpolates
both lengths; a count exactly equal to max_model_len passes validation; in
either failure case add_request returns the error and no new engine state. -/
theorem validate_model_inputs_spec (cfg : ModelConfig) (ids : List Nat)
    (s : EngineState) (rid : String) (params : SamplingParams)
    (hcfg : s.model_config = cfg) :
    validate_model_inputs cfg none = .error .emptyPrompt ∧
    (ids = [] → validate_model_inputs cfg (some ids) = .error .emptyPrompt) ∧
    (cfg.is_multimodal_model = true → cfg.max_model_len < ids.length →
      validate_model_inputs cfg (some ids) =
        .error (.promptTooLong ids.length cfg.max_model_len)) ∧
    (cfg.is_multimodal_model = true → ids.length = cfg.max_model_len →
      0 < ids.length → validate_model_inputs cfg (some ids) = .ok ()) ∧
    (∃ pre mid post : String,
      engine_error_msg (.promptTooLong ids.length cfg.max_model_len) =
        pre ++ (toString ids.length ++ (mid ++ (toString cfg.max_model_len ++ post)))) ∧
    (∀ e, validate_model_inputs cfg (some ids) = .error e →
      add_request s rid (some ids) params = .error e) ∧
    (∀ e, validate_model_inputs cfg none = .error e →
      add_request s rid none params = .error e) := by
  refine ⟨rfl, ?_, ?_, ?_, ?_, ?_, ?_⟩
  · intro h
    subst h
    rfl
  · intro hm hl
    have h0 : ¬ ids.length = 0 := by omega
    simp [validate_model_inputs, hm, h0, hl]
  · intro hm hl hpos
    have h0 : ¬ ids.length = 0 := by omega
    have h1 : ¬ cfg.max_model_len < ids.length := by omega
    simp [validate_model_inputs, hm, h0, h1]
  · exact ⟨prompt_too_long_msg_pre, prompt_too_long_msg_mid,
      prompt_too_long_msg_post, rfl⟩
  · intro e he
    simp [add_request, hcfg, he]
  · intro e he
    simp [add_request, hcfg, he]

def C6cfg : ModelConfig := { is_multimodal_model := true, max_model_len := 100 }

def C6state : EngineState :=
  { model_config := C6cfg
    scheduler := { waiting := [], running := [] }
    detokenizer_reqs := ∅
    outbox := []
    inbox := [] }

def C6params : SamplingParams :=
  { skip_special_tokens := true, spaces_between_special_tokens := true }

/-- Witness for C6 at the boundary 101 versus 100 tokens with
max_model_len = 100, and an empty prompt. -/
theorem validate_model_inputs_spec_witness :
    validate_model_inputs C6cfg (some (List.range 101)) =
      .error (.promptTooLong 101 100) ∧
    validate_model_inputs C6cfg (some (List.range 100)) = .ok () ∧
    add_request C6state "r1" (some []) C6params = .error .emptyPrompt := by
  have h1 := (validate_model_inputs_spec C6cfg (List.range 101) C6state "r1"
      C6params rfl).2.2.1 rfl (by simp [C6cfg])
  have h2 := (validate_model_inputs_spec C6cfg (List.range 100) C6state "r1"
      C6params rfl).2.2.2.1 rfl (by simp [C6cfg]) (by simp)
  have h3 := (validate_model_inputs_spec C6cfg ([] : List Nat) C6state "r1"
      C6params rfl).2.1 rfl
  have h4 := (validate_model_inputs_spec C6cfg ([] : List Nat) C6state "r1"
      C6params rfl).2.2.2.2.2.1 _ h3
  refine ⟨?_, h2, h4⟩
  simpa [C6cfg] using h1

/-- C8: the accumulated output text after a sequence of detokenization
receipts equals the starting text followed by the concatenation, in receipt
order, of every received increment; the receive loop applies exactly one
such increment per receipt, popping the id from the pending table. -/
theorem text_accumulation_spec (r : Request) (incs : List String)
    (p : PendingTable) (rid txt : String) (req : Request)
    (hlook : p.lookup rid = some req) :
    (incs.foldl apply_text_increment r).output_text =
      r.output_text ++ String.join incs ∧
    process_pairs p [(rid, txt)] =
      some (p.erase rid, [apply_text_increment req txt]) := by
  constructor
  · rw [foldl_apply_text_increment]
  · simp [process_pairs, hlook]

def C8req : Request :=
  { request_id := "r1", prompt_token_ids := [1], output_token_ids := [2]
    output_text := ""
    sampling_params := { skip_special_tokens := true, spaces_between_special_tokens := true } }

def C8pending : PendingTable := AList.insert "r1" C8req ∅

/-- Witness for C8: increments "Hel" then "lo" yield accumulated text
"Hello", and one receipt pops the id while appending its increment. -/
theorem text_accumulation_spec_witness :
    (["Hel", "lo"].foldl apply_text_increment C8req).output_text = "Hello" ∧
    process_pairs C8pending [("r1", "Hel")] =
      some (C8pending.erase "r1", [apply_text_increment C8req "Hel"]) := by
  have h := text_accumulation_spec C8req ["Hel", "lo"] C8pending "r1" "Hel" C8req
    (show C8pending.lookup "r1" = some C8req from AList.lookup_insert ∅)
  refine ⟨?_, h.2⟩
  rw [h.1]
  rfl

/-- C3: dispatching a non-empty finished list inserts each finished request
into the pending table under its id (fresh ids assumed, matching the stated
invariant), leaves unrelated pending entries alone, and appends to the
outbound queue one batch message whose parallel arrays list, in finished
order, the ids, full prompt token ids, the output token ids produced since
the last dispatch (all of them, as a request is dispatched exactly once),
and the two text-rendering flags. -/
theorem send_to_detokenizer_spec (s : EngineState) (reqs : List Request)
    (hfresh : ∀ r ∈ reqs, s.detokenizer_reqs.lookup r.request_id = none)
    (hnodup : (reqs.map (fun r => r.request_id)).Nodup) :
    (send_to_detokenizer s reqs).outbox = s.outbox ++
      [{ req_ids := reqs.map (fun r => r.request_id)
         prompt_token_ids := reqs.map (fun r => r.prompt_token_ids)
         new_token_ids := reqs.map (fun r => r.output_token_ids)
         skip_special_tokens := reqs.map (fun r => r.sampling_params.skip_special_tokens)
         spaces_between_special_tokens :=
           reqs.map (fun r => r.sampling_params.spaces_between_special_tokens)
         free_req_ids := [] }] ∧
    (∀ r ∈ reqs,
      (send_to_detokenizer s reqs).detokenizer_reqs.lookup r.request_id = some r) ∧
    (∀ rid : String, rid ∉ reqs.map (fun r => r.request_id) →
      (send_to_detokenizer s reqs).detokenizer_reqs.lookup rid =
        s.detokenizer_reqs.lookup rid) := by
  have hfold := foldl_send_step reqs s.detokenizer_reqs empty_detokenizer_inputs
  refine ⟨?_, ?_, ?_⟩
  · show s.outbox ++
        [(reqs.foldl send_step (s.detokenizer_reqs, empty_detokenizer_inputs)).2] = _
    rw [hfold]
    simp [empty_detokenizer_inputs]
  · intro r hr
    show ((reqs.foldl send_step (s.detokenizer_reqs, empty_detokenizer_inputs)).1).lookup
        r.request_id = some r
    rw [hfold]
    exact lookup_foldl_insert_mem reqs s.detokenizer_reqs r hr hnodup
  · intro rid hrid
    show ((reqs.foldl send_step (s.detokenizer_reqs, empty_detokenizer_inputs)).1).lookup
        rid = s.detokenizer_reqs.lookup rid
    rw [hfold]
    exact lookup_foldl_insert_not_mem reqs s.detokenizer_reqs rid hrid

def C3req1 : Request :=
  { request_id := "a", prompt_token_ids := [1, 2], output_token_ids := [3]
    output_text := ""
    sampling_params := { skip_special_tokens := true, spaces_between_special_tokens := false } }

def C3req2 : Request :=
  { request_id := "b", prompt_token_ids := [4], output_token_ids := [5, 6]
    output_text := ""
    sampling_params := { skip_special_tokens := false, spaces_between_special_tokens := true } }

def C3state : EngineState :=
  { model_config := { is_multimodal_model := false, max_model_len := 100 }
    scheduler := { waiting := [], running := [] }
    detokenizer_reqs := ∅
    outbox := []
    inbox := [] }

/-- Witness for C3 on two concrete finished requests. -/
theorem send_to_detokenizer_spec_witness :
    (send_to_detokenizer C3state [C3req1, C3req2]).outbox =
      [{ req_ids := ["a", "b"]
         prompt_token_ids := [[1, 2], [4]]
         new_token_ids := [[3], [5, 6]]
         skip_special_tokens := [true, false]
         spaces_between_special_tokens := [false, true]
         free_req_ids := [] }] ∧
    (send_to_detokenizer C3state [C3req1, C3req2]).detokenizer_reqs.lookup "a" =
      some C3req1 := by
  have h := send_to_detokenizer_spec C3state [C3req1, C3req2]
    (by intro r hr; rfl) (by decide)
  refine ⟨?_, h.2.1 C3req1 (by simp)⟩
  simpa [C3state, C3req1, C3req2] using h.1

/-- C2: one call to recv_from_detokenizer drains at most the one inbound
message at the head of the queue; for each pair of that message whose id is
in the pending table, the id is popped, the text increment appended, and the
request added to the returned completed list in message order; a pair whose
id is absent from the pending table makes the whole call fail via the
assertion, never silently skipping the pair. -/
theorem recv_from_detokenizer_spec (s : EngineState) (msg : DetokenizerOutputs)
    (rest : List DetokenizerOutputs) (hinbox : s.inbox = msg :: rest)
    (hwf : PendingWF s.detokenizer_reqs) :
    (∀ s' completed, recv_from_detokenizer s = some (s', completed) →
      s'.inbox = rest ∧
      completed.map (fun r => r.request_id) = (msg_pairs msg).map Prod.fst ∧
      (∀ rid, rid ∈ (msg_pairs msg).map Prod.fst →
        s'.detokenizer_reqs.lookup rid = none) ∧
      (∀ rid txt r, (rid, txt) ∈ msg_pairs msg →
        s.detokenizer_reqs.lookup rid = some r →
        apply_text_increment r txt ∈ completed)) ∧
    (∀ rid txt, (rid, txt) ∈ msg_pairs msg →
      s.detokenizer_reqs.lookup rid = none →
      recv_from_detokenizer s = none) := by
  constructor
  · intro s' completed hrecv
    simp only [recv_from_detokenizer, hinbox] at hrecv
    cases hp : process_pairs s.detokenizer_reqs (msg_pairs msg) with
    | none =>
      simp only [hp] at hrecv
      exact Option.noConfusion hrecv
    | some pr =>
      obtain ⟨pr1, pr2⟩ := pr
      simp only [hp, Option.some.injEq, Prod.mk.injEq] at hrecv
      obtain ⟨rfl, rfl⟩ := hrecv
      refine ⟨rfl, ?_, ?_, ?_⟩
      · exact process_pairs_ids (msg_pairs msg) s.detokenizer_reqs pr1 pr2 hp hwf
      · intro rid hmem
        exact process_pairs_removed (msg_pairs msg) s.detokenizer_reqs pr1 pr2
          hp rid hmem
      · intro rid txt r hmem hlook
        exact process_pairs_content (msg_pairs msg) s.detokenizer_reqs pr1 pr2
          rid txt r hp hmem hlook
  · intro rid txt hmem hnone
    have hfail := process_pairs_fail (msg_pairs msg) s.detokenizer_reqs rid txt
      hmem hnone
    simp only [recv_from_detokenizer, hinbox, hfail]

def C2req : Request :=
  { request_id := "r1", prompt_token_ids := [7], output_token_ids := [8]
    output_text := ""
    sampling_params := { skip_special_tokens := true, spaces_between_special_tokens := true } }

def C2pending : PendingTable := AList.insert "r1" C2req ∅

def C2msg : DetokenizerOutputs := { req_ids := ["r1"], detokenized_texts := ["Hi"] }

def C2state : EngineState :=
  { model_config := { is_multimodal_model := false, max_model_len := 10 }
    scheduler := { waiting := [], running := [] }
    detokenizer_reqs := C2pending
    outbox := []
    inbox := [C2msg] }

def C2bad : EngineState := { C2state with detokenizer_reqs := ∅ }

def C2after : EngineState :=
  { C2state with detokenizer_reqs := C2pending.erase "r1", inbox := [] }

theorem C2pending_wf : PendingWF C2pending :=
  pendingWF_insert ∅ C2req pendingWF_empty

/-- Witness for C2: a one-pair message for a pending id empties the table,
while the same message against an empty pending table is fatal. -/
theorem recv_from_detokenizer_spec_witness :
    C2after.detokenizer_reqs.lookup "r1" = none ∧
    recv_from_detokenizer C2bad = none := by
  have hs := (recv_from_detokenizer_spec C2state C2msg [] rfl C2pending_wf).1
    C2after [apply_text_increment C2req "Hi"] rfl
  have hf := (recv_from_detokenizer_spec C2bad C2msg [] rfl pendingWF_empty).2
    "r1" "Hi" (by decide) (AList.lookup_empty "r1")
  exact ⟨hs.2.2.1 "r1" (by decide), hf⟩

/-- C9: abort_request changes only scheduler-owned state: the pending table,
both message queues, and the configuration are untouched; a request already
pending detokenization survives abort and is still returned as completed by
a later receive of its detokenization message. -/
theorem abort_request_spec (s : EngineState) (ids : List String)
    (rid txt : String) (r : Request)
    (hpend : s.detokenizer_reqs.lookup rid = some r) (hinbox : s.inbox = []) :
    (abort_request s ids).detokenizer_reqs = s.detokenizer_reqs ∧
    (abort_request s ids).outbox = s.outbox ∧
    (abort_request s ids).inbox = s.inbox ∧
    (abort_request s ids).model_config = s.model_config ∧
    (abort_request s ids).detokenizer_reqs.lookup rid = some r ∧
    recv_from_detokenizer
        { abort_request s ids with
            inbox := (abort_request s ids).inbox ++
              [{ req_ids := [rid], detokenized_texts := [txt] }] } =
      some ({ abort_request s ids with
                detokenizer_reqs := s.detokenizer_reqs.erase rid
                inbox := [] },
            [apply_text_increment r txt]) := by
  refine ⟨rfl, rfl, rfl, rfl, hpend, ?_⟩
  have hproc : process_pairs s.detokenizer_reqs
      (msg_pairs { req_ids := [rid], detokenized_texts := [txt] }) =
      some (s.detokenizer_reqs.erase rid, [apply_text_increment r txt]) := by
    simp [msg_pairs, process_pairs, hpend]
  simp only [recv_from_detokenizer, abort_request, hinbox, List.nil_append, hproc]

def C9req : Request :=
  { request_id := "p1", prompt_token_ids := [9], output_token_ids := [10]
    output_text := "so "
    sampling_params := { skip_special_tokens := false, spaces_between_special_tokens := true } }

def C9state : EngineState :=
  { model_config := { is_multimodal_model := false, max_model_len := 10 }
    scheduler := { waiting := [], running := [] }
    detokenizer_reqs := AList.insert "p1" C9req ∅
    outbox := []
    inbox := [] }

/-- Witness for C9 at a concrete state with one pending request. -/
theorem abort_request_spec_witness :
    (abort_request C9state ["p1"]).detokenizer_reqs.lookup "p1" = some C9req ∧
    recv_from_detokenizer
        { abort_request C9state ["p1"] with
            inbox := (abort_request C9state ["p1"]).inbox ++
              [{ req_ids := ["p1"], detokenized_texts := ["far"] }] } =
      some ({ abort_request C9state ["p1"] with
                detokenizer_reqs := C9state.detokenizer_reqs.erase "p1"
                inbox := [] },
            [apply_text_increment C9req "far"]) := by
  have h := abort_request_spec C9state ["p1"] "p1" "far" C9req
    (AList.lookup_insert ∅) rfl
  exact ⟨h.2.2.2.2.1, h.2.2.2.2.2⟩

def C10req : Request :=
  { request_id := "d1", prompt_token_ids := [1], output_token_ids := [2]
    output_text := "x"
    sampling_params := { skip_special_tokens := true, spaces_between_special_tokens := true } }

def C10state : EngineState :=
  { model_config := { is_multimodal_model := false, max_model_len := 10 }
    scheduler := { waiting := [], running := [] }
    detokenizer_reqs := AList.insert "d1" C10req ∅
    outbox := []
    inbox := [] }

/-- C10: has_unfinished_requests is true exactly when the scheduler has
unfinished requests or the pending table is non-empty, while
get_num_unfinished_requests returns only the scheduler count; at the
concrete state C10state (generation done, one receipt outstanding) the count
is 0 yet has_unfinished_requests is true. -/
theorem has_unfinished_requests_spec (s : EngineState) :
    (has_unfinished_requests s = true ↔
      (sched_has_unfinished s.scheduler = true ∨ s.detokenizer_reqs.entries ≠ [])) ∧
    get_num_unfinished_requests s = sched_get_num_unfinished s.scheduler ∧
    get_num_unfinished_requests C10state = 0 ∧
    has_unfinished_requests C10state = true := by
  refine ⟨?_, rfl, rfl, rfl⟩
  simp [has_unfinished_requests, List.length_pos]

/-- Witness for C10: the concrete divergence between the two predicates. -/
theorem has_unfinished_requests_spec_witness :
    get_num_unfinished_requests C10state = 0 ∧
    has_unfinished_requests C10state = true :=
  ⟨(has_unfinished_requests_spec C10state).2.2.1,
   (has_unfinished_requests_spec C10state).2.2.2⟩

/-- C1: when the scheduler reports unfinished requests, one step call runs
schedule, execute, apply and, exactly when the finished set is non-empty,
dispatch, followed by receive; when it reports none, the sub-sequence is
skipped and only receive runs, on the unchanged state; in both cases the
returned pair is (requests completed by detokenization this call, the
scheduler running set of the resulting state). -/
theorem step_spec (s : EngineState) (finIds : List String)
    (s' : EngineState) (completed running : List Request) (evs : List StepEvent)
    (h : step s finIds = some (s', completed, running, evs)) :
    running = s'.scheduler.running ∧
    (sched_has_unfinished s.scheduler = false →
      evs = [StepEvent.receive] ∧
      recv_from_detokenizer s = some (s', completed) ∧
      s'.scheduler = s.scheduler) ∧
    (sched_has_unfinished s.scheduler = true →
      evs = [StepEvent.schedule, StepEvent.execute, StepEvent.applyOutput] ++
        (if (sched_update_from_output (sched_schedule s.scheduler) finIds).1.isEmpty
         then [] else [StepEvent.dispatch]) ++ [StepEvent.receive] ∧
      recv_from_detokenizer
          (if (sched_update_from_output (sched_schedule s.scheduler) finIds).1.isEmpty
           then { s with
                    scheduler := (sched_update_from_output (sched_schedule s.scheduler) finIds).2 }
           else send_to_detokenizer
             { s with
                 scheduler := (sched_update_from_output (sched_schedule s.scheduler) finIds).2 }
             (sched_update_from_output (sched_schedule s.scheduler) finIds).1) =
        some (s', completed)) := by
  by_cases hu : sched_has_unfinished s.scheduler = true
  · simp only [step, if_pos hu] at h
    cases hrecv : recv_from_detokenizer
        (if (sched_update_from_output (sched_schedule s.scheduler) finIds).1.isEmpty
         then ({ s with
                   scheduler := (sched_update_from_output (sched_schedule s.scheduler) finIds).2 } :
                 EngineState)
         else send_to_detokenizer
           { s with
               scheduler := (sched_update_from_output (sched_schedule s.scheduler) finIds).2 }
           (sched_update_from_output (sched_schedule s.scheduler) finIds).1) with
    | none =>
      simp only [hrecv] at h
      exact Option.noConfusion h
    | some pr =>
      obtain ⟨s3, comp3⟩ := pr
      simp only [hrecv, Option.some.injEq, Prod.mk.injEq] at h
      obtain ⟨rfl, rfl, hrun, hevs⟩ := h
      refine ⟨hrun.symm, ?_, ?_⟩
      · intro hfalse
        rw [hu] at hfalse
        cases hfalse
      · intro _
        exact ⟨hevs.symm, rfl⟩
  · simp only [step, if_neg hu] at h
    cases hrecv : recv_from_detokenizer s with
    | none =>
      simp only [hrecv] at h
      exact Option.noConfusion h
    | some pr =>
      obtain ⟨s3, comp3⟩ := pr
      simp only [hrecv, Option.some.injEq, Prod.mk.injEq] at h
      obtain ⟨rfl, rfl, hrun, hevs⟩ := h
      refine ⟨hrun.symm, ?_, ?_⟩
      · intro _
        exact ⟨hevs.symm, rfl, (recv_frame s s3 comp3 hrecv).1⟩
      · intro htrue
        exact absurd htrue hu

def C1req : Request :=
  { request_id := "r1", prompt_token_ids := [1, 2], output_token_ids := [3]
    output_text := ""
    sampling_params := { skip_special_tokens := true, spaces_between_special_tokens := true } }

def C1state : EngineState :=
  { model_config := { is_multimodal_model := false, max_model_len := 10 }
    scheduler := { waiting := [], running := [C1req] }
    detokenizer_reqs := ∅
    outbox := []
    inbox := [] }

def C1after : EngineState :=
  { model_config := { is_multimodal_model := false, max_model_len := 10 }
    scheduler := { waiting := [], running := [] }
    detokenizer_reqs := AList.insert "r1" C1req ∅
    outbox := [{ req_ids := ["r1"], prompt_token_ids := [[1, 2]]
                 new_token_ids := [[3]], skip_special_tokens := [true]
                 spaces_between_special_tokens := [true], free_req_ids := [] }]
    inbox := [] }

/-- Witness for C1: a step in which one running request finishes performs
schedule, execute, apply, dispatch, receive in that order. -/
theorem step_spec_witness :
    ([] : List Request) = C1after.scheduler.running ∧
    step C1state ["r1"] = some (C1after, [], [],
      [StepEvent.schedule, StepEvent.execute, StepEvent.applyOutput,
       StepEvent.dispatch, StepEvent.receive]) := by
  have hstep : step C1state ["r1"] = some (C1after, [], [],
      [StepEvent.schedule, StepEvent.execute, StepEvent.applyOutput,
       StepEvent.dispatch, StepEvent.receive]) := rfl
  exact ⟨(step_spec C1state ["r1"] C1after [] []
    [StepEvent.schedule, StepEvent.execute, StepEvent.applyOutput,
     StepEvent.dispatch, StepEvent.receive] hstep).1, hstep⟩

/-! ## Engine operation sequences and the ownership invariant -/

/-- The externally triggered engine operations: admission, one step call
(the executor output abstracted as the set of ids finishing generation this
step), abort, and the environment delivering a worker message. -/
inductive EngineOp where
  | add (request_id : String) (prompt_ids : Option (List Nat))
      (params : SamplingParams) : EngineOp
  | step (finIds : List String) : EngineOp
  | abort (ids : List String) : EngineOp
  | deliver (msg : DetokenizerOutputs) : EngineOp

/-- Run one operation; none models a raised error. -/
def runOp (s : EngineState) : EngineOp → Option EngineState
  | .add rid prompt params =>
    match add_request s rid prompt params with
    | .ok s2 => some s2
    | .error _ => none
  | .step finIds => (step s finIds).map (fun r => r.1)
  | .abort ids => some (abort_request s ids)
  | .deliver msg => some { s with inbox := s.inbox ++ [msg] }

/-- Run a sequence of operations. -/
def runOps (s : EngineState) : List EngineOp → Option EngineState
  | [] => some s
  | op :: ops =>
    match runOp s op with
    | none => none
    | some s2 => runOps s2 ops

/-- Mutual exclusion of ownership: no id owned by the scheduler is also a
key of the pending-detokenization table. -/
def MutualExclusion (s : EngineState) : Prop :=
  ∀ rid, sched_owns_id s.scheduler rid = true →
    s.detokenizer_reqs.lookup rid = none

/-- An operation is add-safe at a state when, if it is an add, its id is not
currently pending detokenization (the restriction the counterexample to the
unrestricted claim forces). -/
def addSafe (s : EngineState) : EngineOp → Prop
  | .add rid _ _ => s.detokenizer_reqs.lookup rid = none
  | _ => True

/-- Every operation of the sequence is add-safe at its execution state. -/
def SafeOps (s : EngineState) : List EngineOp → Prop
  | [] => True
  | op :: ops => addSafe s op ∧ ∀ s2, runOp s op = some s2 → SafeOps s2 ops

theorem sched_owns_id_iff (sch : SchedulerState) (rid : String) :
    sched_owns_id sch rid = true ↔
      ∃ r, (r ∈ sch.waiting ∨ r ∈ sch.running) ∧ r.request_id = rid := by
  simp [sched_owns_id, List.any_eq_true, List.mem_append, beq_iff_eq]
  constructor
  · rintro (⟨x, hx, hid⟩ | ⟨x, hx, hid⟩)
    · exact ⟨x, Or.inl hx, hid⟩
    · exact ⟨x, Or.inr hx, hid⟩
  · rintro ⟨x, hx | hx, hid⟩
    · exact Or.inl ⟨x, hx, hid⟩
    · exact Or.inr ⟨x, hx, hid⟩

theorem owns_after_update (sch : SchedulerState) (finIds : List String)
    (rid : String)
    (h : sched_owns_id (sched_update_from_output (sched_schedule sch) finIds).2
      rid = true) :
    sched_owns_id sch rid = true ∧ finIds.contains rid = false := by
  rw [sched_owns_id_iff] at h
  obtain ⟨r, hmem, hrid⟩ := h
  rcases hmem with hw | hr
  · cases hw
  · have hf := List.mem_filter.mp hr
    have hcon : finIds.contains r.request_id = false := by
      have := hf.2
      rwa [Bool.not_eq_true'] at this
    constructor
    · rw [sched_owns_id_iff]
      exact ⟨r, List.mem_append.mp hf.1, hrid⟩
    · rw [← hrid]
      exact hcon

theorem fin_ids_contains (sch : SchedulerState) (finIds : List String)
    (rid : String)
    (h : rid ∈ (sched_update_from_output (sched_schedule sch) finIds).1.map
      (fun r => r.request_id)) :
    finIds.contains rid = true := by
  simp only [List.mem_map] at h
  obtain ⟨r, hmem, hrid⟩ := h
  have := (List.mem_filter.mp hmem).2
  rw [← hrid]
  exact this

theorem mutual_exclusion_add (s s2 : EngineState) (rid : String)
    (prompt : Option (List Nat)) (params : SamplingParams)
    (hI : MutualExclusion s) (hsafe : s.detokenizer_reqs.lookup rid = none)
    (h : add_request s rid prompt params = .ok s2) :
    MutualExclusion s2 := by
  unfold add_request at h
  cases hv : validate_model_inputs s.model_config prompt with
  | error e =>
    simp only [hv] at h
    exact Except.noConfusion h
  | ok u =>
    simp only [hv] at h
    cases hadd : sched_add_request s.scheduler
        { request_id := rid, prompt_token_ids := prompt.getD []
          output_token_ids := [], output_text := ""
          sampling_params := params } with
    | none =>
      simp only [hadd] at h
      exact Except.noConfusion h
    | some sch2 =>
      simp only [hadd, Except.ok.injEq] at h
      subst h
      unfold sched_add_request at hadd
      by_cases hdup : sched_owns_id s.scheduler rid = true
      · rw [if_pos hdup] at hadd
        exact Option.noConfusion hadd
      · rw [if_neg hdup, Option.some.injEq] at hadd
        subst hadd
        intro rid2 howns
        rw [sched_owns_id_iff] at howns
        obtain ⟨r, hmem, hrid2⟩ := howns
        rcases hmem with hw | hr
        · rcases List.mem_append.mp hw with hold | hnew
          · exact hI rid2 ((sched_owns_id_iff s.scheduler rid2).mpr
              ⟨r, Or.inl hold, hrid2⟩)
          · have : r.request_id = rid := by
              cases List.mem_singleton.mp hnew
              rfl
            rw [← hrid2, this]
            exact hsafe
        · exact hI rid2 ((sched_owns_id_iff s.scheduler rid2).mpr
            ⟨r, Or.inr hr, hrid2⟩)

theorem mutual_exclusion_abort (s : EngineState) (ids : List String)
    (hI : MutualExclusion s) : MutualExclusion (abort_request s ids) := by
  intro rid howns
  apply hI
  rw [sched_owns_id_iff] at howns ⊢
  obtain ⟨r, hmem, hrid⟩ := howns
  refine ⟨r, ?_, hrid⟩
  rcases hmem with hw | hr
  · exact Or.inl (List.mem_of_mem_filter hw)
  · exact Or.inr (List.mem_of_mem_filter hr)

theorem mutual_exclusion_step (s s' : EngineState) (finIds : List String)
    (hI : MutualExclusion s)
    (h : (step s finIds).map (fun r => r.1) = some s') :
    MutualExclusion s' := by
  cases hst : step s finIds with
  | none =>
    rw [hst] at h
    exact Option.noConfusion h
  | some res =>
    obtain ⟨s3, comp, run, evs⟩ := res
    rw [hst] at h
    have h3eq : s3 = s' := Option.some.inj h
    subst h3eq
    have hs := step_spec s finIds s3 comp run evs hst
    by_cases hu : sched_has_unfinished s.scheduler = true
    · have h3 := hs.2.2 hu
      by_cases hemp :
          (sched_update_from_output (sched_schedule s.scheduler) finIds).1.isEmpty = true
      · simp only [if_pos hemp] at h3
        intro rid howns
        have hframe := recv_frame _ s3 comp h3.2
        rw [hframe.1] at howns
        have hupd := owns_after_update s.scheduler finIds rid howns
        exact recv_preserves_none _ s3 comp rid h3.2 (hI rid hupd.1)
      · simp only [if_neg hemp] at h3
        intro rid howns
        have hframe := recv_frame _ s3 comp h3.2
        rw [hframe.1] at howns
        have hupd := owns_after_update s.scheduler finIds rid howns
        have hpend2 : (send_to_detokenizer
            { s with scheduler :=
                (sched_update_from_output (sched_schedule s.scheduler) finIds).2 }
            (sched_update_from_output (sched_schedule s.scheduler) finIds).1).detokenizer_reqs =
            (sched_update_from_output (sched_schedule s.scheduler) finIds).1.foldl
              (fun t r => t.insert r.request_id r) s.detokenizer_reqs := by
          show ((sched_update_from_output (sched_schedule s.scheduler) finIds).1.foldl
            send_step (s.detokenizer_reqs, empty_detokenizer_inputs)).1 = _
          rw [foldl_send_step]
        have hnone2 : (send_to_detokenizer
            { s with scheduler :=
                (sched_update_from_output (sched_schedule s.scheduler) finIds).2 }
            (sched_update_from_output (sched_schedule s.scheduler) finIds).1).detokenizer_reqs.lookup
              rid = none := by
          rw [hpend2, lookup_foldl_insert_not_mem]
          · exact hI rid hupd.1
          · intro hmem
            have hc := fin_ids_contains s.scheduler finIds rid hmem
            rw [hupd.2] at hc
            cases hc
        exact recv_preserves_none _ s3 comp rid h3.2 hnone2
    · cases hB : sched_has_unfinished s.scheduler with
      | true => exact absurd hB hu
      | false =>
        have h2 := hs.2.1 hB
        intro rid howns
        rw [h2.2.2] at howns
        exact recv_preserves_none s s3 comp rid h2.2.1 (hI rid howns)

theorem mutual_exclusion_runOp (s s' : EngineState) (op : EngineOp)
    (hI : MutualExclusion s) (hsafe : addSafe s op) (h : runOp s op = some s') :
    MutualExclusion s' := by
  cases op with
  | add rid prompt params =>
    simp only [runOp] at h
    cases ha : add_request s rid prompt params with
    | ok s2 =>
      simp only [ha, Option.some.injEq] at h
      subst h
      exact mutual_exclusion_add s s2 rid prompt params hI hsafe ha
    | error e =>
      simp only [ha] at h
      exact Option.noConfusion h
  | step finIds =>
    exact mutual_exclusion_step s s' finIds hI h
  | abort ids =>
    simp only [runOp, Option.some.injEq] at h
    subst h
    exact mutual_exclusion_abort s ids hI
  | deliver msg =>
    simp only [runOp, Option.some.injEq] at h
    subst h
    intro rid howns
    exact hI rid howns

/-- C4 amended: along any sequence of engine operations in which no add call
reuses an id still present in the pending-detokenization table, every
reachable state keeps each request id in at most one of the scheduler-owned
set and the pending table. -/
theorem mutual_exclusion_invariant (ops : List EngineOp) :
    ∀ (s s' : EngineState), MutualExclusion s → SafeOps s ops →
    runOps s ops = some s' → MutualExclusion s' := by
  induction ops with
  | nil =>
    intro s s' hI _ h
    have hss : s = s' := Option.some.inj h
    subst hss
    exact hI
  | cons op ops ih =>
    intro s s' hI hsafe h
    simp only [runOps] at h
    cases hop : runOp s op with
    | none =>
      simp only [hop] at h
      exact Option.noConfusion h
    | some s2 =>
      simp only [hop] at h
      exact ih s2 s' (mutual_exclusion_runOp s s2 op hI hsafe.1 hop)
        (hsafe.2 s2 hop) h

def CexParams : SamplingParams :=
  { skip_special_tokens := true, spaces_between_special_tokens := true }

def CexInit : EngineState :=
  { model_config := { is_multimodal_model := false, max_model_len := 10 }
    scheduler := { waiting := [], running := [] }
    detokenizer_reqs := ∅
    outbox := []
    inbox := [] }

def C4ops : List EngineOp :=
  [.add "r1" (some [1]) CexParams, .step ["r1"], .add "r1" (some [1]) CexParams]

/-- Counterexample to C4 as stated: add r1, run a step in which r1 finishes
generation (moving it into the pending table), then add r1 again — the
engine consults only the scheduler, accepts the duplicate, and the reachable
state has r1 both scheduler-owned and pending detokenization. -/
theorem mutual_exclusion_cex :
    (runOps CexInit C4ops).map
        (fun s => (sched_owns_id s.scheduler "r1",
                   (s.detokenizer_reqs.lookup "r1").isSome)) =
      some (true, true) := by
  rfl

def C4mid : EngineState :=
  { model_config := { is_multimodal_model := false, max_model_len := 10 }
    scheduler := { waiting := [], running := [] }
    detokenizer_reqs := AList.insert "r1"
      { request_id := "r1", prompt_token_ids := [1], output_token_ids := []
        output_text := "", sampling_params := CexParams } ∅
    outbox := [{ req_ids := ["r1"], prompt_token_ids := [[1]]
                 new_token_ids := [[]], skip_special_tokens := [true]
                 spaces_between_special_tokens := [true], free_req_ids := [] }]
    inbox := [] }

/-- Witness for the amended C4 along the safe prefix add r1 then step. -/
theorem mutual_exclusion_invariant_witness : MutualExclusion C4mid :=
  mutual_exclusion_invariant [.add "r1" (some [1]) CexParams, .step ["r1"]]
    CexInit C4mid
    (fun _ h => Bool.noConfusion h)
    ⟨rfl, fun _ _ => ⟨trivial, fun _ _ => trivial⟩⟩
    rfl

/-- C5 amended: adding an id already owned by the scheduler (Queued or
Running) fails with InvalidArgument and produces no new state, but an id
present only in the pending-detokenization table is not rejected: admission
consults only the scheduler and succeeds. -/
theorem add_request_duplicate_spec (s : EngineState) (rid : String)
    (prompt : Option (List Nat)) (params : SamplingParams)
    (hval : validate_model_inputs s.model_config prompt = .ok ()) :
    (sched_owns_id s.scheduler rid = true →
      add_request s rid prompt params = .error .invalidArgument) ∧
    (sched_owns_id s.scheduler rid = false →
      add_request s rid prompt params = .ok
        { s with scheduler := { s.scheduler with
            waiting := s.scheduler.waiting ++
              [{ request_id := rid, prompt_token_ids := prompt.getD []
                 output_token_ids := [], output_text := ""
                 sampling_params := params }] } }) := by
  constructor
  · intro hdup
    simp [add_request, hval, sched_add_request, hdup]
  · intro hfree
    simp [add_request, hval, sched_add_request, hfree]

def C5state : EngineState :=
  { model_config := { is_multimodal_model := false, max_model_len := 10 }
    scheduler := { waiting := [{ request_id := "q1", prompt_token_ids := [1]
                                 output_token_ids := [], output_text := ""
                                 sampling_params := CexParams }]
                   running := [] }
    detokenizer_reqs := ∅
    outbox := []
    inbox := [] }

/-- Witness for the amended C5: a duplicate of a queued id is rejected. -/
theorem add_request_duplicate_spec_witness :
    add_request C5state "q1" (some [2]) CexParams = .error .invalidArgument :=
  (add_request_duplicate_spec C5state "q1" (some [2]) CexParams rfl).1 rfl

/-- Counterexample to C5 as stated: with r1 awaiting detokenization (and no
longer scheduler-owned), a second add of r1 is accepted rather than failing
with InvalidArgument. -/
theorem add_request_duplicate_cex :
    (runOps CexInit [.add "r1" (some [1]) CexParams, .step ["r1"]]).map
        (fun s => ((s.detokenizer_reqs.lookup "r1").isSome,
                   match add_request s "r1" (some [1]) CexParams with
                   | .ok _ => true
                   | .error _ => false)) =
      some (true, true) := by
  rfl

end VllmV1
